import Mathlib

/-!
# DocFinder: verification of the indexing and retrieval core

Shallow embedding of the DocFinder repository's core components, translated
from the Python source:

* `src/docfinder/utils/text.py` — the streaming overlap chunker
  (`chunk_text_stream`), modelled over `List α` (a Python string is a
  sequence of characters; the chunker never inspects individual characters).
* `src/docfinder/index/storage.py` — the SQLite-backed vector store
  (`init_document`, `insert_chunks`, `transaction`, `search`), modelled as
  explicit state passing over a `StoreState` record; float32 scores are
  modelled as exact integers (the ranking algorithm is unchanged).
* `src/docfinder/index/indexer.py` — the per-document indexing loop and its
  aggregate statistics.
* `src/docfinder/index/search.py` and `src/docfinder/web/app.py` — the search
  path; calls to the embedding provider are recorded in an explicit call log.
-/

namespace DocFinder

/-! ## Chunker (`docfinder/utils/text.py`, `chunk_text_stream`)

Python source:
```
def chunk_text_stream(text_stream, *, max_chars=1200, overlap=200):
    buffer = ""
    step = max(max_chars - overlap, 1)
    for part in text_stream:
        buffer += part
        while len(buffer) >= max_chars:
            yield buffer[:max_chars]
            buffer = buffer[step:]
    if buffer:
        yield buffer
```
-/

/-- `step = max(max_chars - overlap, 1)` from `chunk_text_stream`. -/
def chunkStep (maxChars overlap : Nat) : Nat := max (maxChars - overlap) 1

/-- The inner `while len(buffer) >= max_chars` loop of `chunk_text_stream`:
returns the chunks emitted and the remaining buffer.  The `0 < maxChars`
conjunct only cuts the loop in the degenerate `max_chars = 0` case, where the
Python generator never terminates; every claim assumes `max_chars > 0`. -/
def emitLoop (maxChars overlap : Nat) (buf : List α) : List (List α) × List α :=
  if _h : 0 < maxChars ∧ maxChars ≤ buf.length then
    let rest := emitLoop maxChars overlap (buf.drop (chunkStep maxChars overlap))
    (buf.take maxChars :: rest.1, rest.2)
  else
    ([], buf)
termination_by buf.length
decreasing_by
  simp only [List.length_drop]
  have h1 : 1 ≤ chunkStep maxChars overlap := le_max_right _ _
  omega

/-- The trailing `if buffer: yield buffer` of `chunk_text_stream`. -/
def residual (buf : List α) : List (List α) :=
  if buf.isEmpty then [] else [buf]

/-- The `for part in text_stream` loop of `chunk_text_stream`, carrying the
buffer across parts. -/
def chunkStreamAux (maxChars overlap : Nat) : List (List α) → List α → List (List α)
  | [], buf => residual buf
  | p :: ps, buf =>
    (emitLoop maxChars overlap (buf ++ p)).1 ++
      chunkStreamAux maxChars overlap ps (emitLoop maxChars overlap (buf ++ p)).2

/-- `chunk_text_stream(text_stream, max_chars=…, overlap=…)`: split a stream
of text parts into overlapping character chunks. -/
def chunk_text_stream (parts : List (List α)) (maxChars overlap : Nat) : List (List α) :=
  chunkStreamAux maxChars overlap parts []

/-- `build_chunks` (`docfinder/ingestion/pdf_loader.py`) tags each chunk with
its zero-based position via `enumerate`; this is that indexing step. -/
def build_chunk_indexed (parts : List (List α)) (maxChars overlap : Nat) : List (Nat × List α) :=
  (chunk_text_stream parts maxChars overlap).enum

/-- Reconstruction reading of the spec: the first chunk, followed by every
later chunk stripped of its first `overlap` characters. -/
def reconstruct (overlap : Nat) : List (List α) → List α
  | [] => []
  | c :: cs => c ++ (cs.map (List.drop overlap)).flatten

/-! ## Store data model (`docfinder/models.py`, `docfinder/index/storage.py`)

The SQLite database is modelled as an explicit record of table rows.
`float32` embedding vectors are modelled as exact integer vectors: the
ranking and storage algorithms are untouched by this choice.  A chunk's
metadata dict is kept in its serialized text form (the `json.dumps` at the
storage boundary is an injective encoding that no claim inspects). -/

/-- `DocumentMetadata` from `docfinder/models.py`. -/
structure DocumentMetadata where
  path : String
  title : String
  sha256 : String
  mtime : Int
  size : Nat
deriving DecidableEq

/-- `ChunkRecord` from `docfinder/models.py` (metadata in serialized form). -/
structure ChunkRecord where
  document_path : String
  index : Nat
  text : String
  metadata : String
deriving DecidableEq

/-- A row of the `documents` table (`created_at`/`updated_at` timestamps are
not modelled; no claim mentions them). -/
structure DocRow where
  id : Nat
  path : String
  title : String
  sha256 : String
  mtime : Int
  size : Nat
deriving DecidableEq

/-- A row of the `chunks` table; `embedding` is the stored vector (the raw
float32 blob holds exactly `embedding.length` entries, 4 bytes each). -/
structure ChunkRow where
  document_id : Nat
  chunk_index : Nat
  text : String
  metadata : String
  embedding : List Int
deriving DecidableEq

/-- The persistent state of a `SQLiteVectorStore`: its configured dimension,
the two tables, and the next fresh row id (`lastrowid` source). -/
structure StoreState where
  dimension : Nat
  docs : List DocRow
  chunks : List ChunkRow
  nextId : Nat
deriving DecidableEq

/-- `SELECT id, sha256 FROM documents WHERE path = ?` followed by
`fetchone()`: the first row whose path matches. -/
def findDoc (s : StoreState) (path : String) : Option DocRow :=
  s.docs.find? (fun r => r.path == path)

/-- The fresh `documents` row inserted by `init_document`. -/
def newDocRow (s : StoreState) (d : DocumentMetadata) : DocRow :=
  ⟨s.nextId, d.path, d.title, d.sha256, d.mtime, d.size⟩

/-- `SQLiteVectorStore.init_document` (`docfinder/index/storage.py`): look up
the row with the document's path; if its stored hash matches return
`(-1, "skipped")`; on a hash mismatch delete the row and its chunks and insert
a fresh row (`"updated"`); otherwise insert a fresh row (`"inserted"`). -/
def init_document (s : StoreState) (d : DocumentMetadata) : StoreState × Int × String :=
  match findDoc s d.path with
  | some ex =>
    if ex.sha256 = d.sha256 then
      (s, -1, "skipped")
    else
      ({ s with
          chunks := s.chunks.filter (fun c => c.document_id ≠ ex.id),
          docs := s.docs.filter (fun r => r.id ≠ ex.id) ++ [newDocRow s d],
          nextId := s.nextId + 1 },
       (s.nextId : Int), "updated")
  | none =>
    ({ s with docs := s.docs ++ [newDocRow s d], nextId := s.nextId + 1 },
     (s.nextId : Int), "inserted")

/-- `SQLiteVectorStore.insert_chunks`: raises
`ValueError("Embeddings and chunks length mismatch")` when the embedding
matrix row count differs from the chunk count, otherwise appends one chunk
row per `(chunk, vector)` pair of the zip. -/
def insert_chunks (s : StoreState) (doc_id : Nat) (chunks : List ChunkRecord)
    (embeddings : List (List Int)) : Except String StoreState :=
  if embeddings.length ≠ chunks.length then
    Except.error "Embeddings and chunks length mismatch"
  else
    Except.ok { s with
      chunks := s.chunks ++ (chunks.zip embeddings).map
        (fun ce => ⟨doc_id, ce.1.index, ce.1.text, ce.1.metadata, ce.2⟩) }

/-- Invariant of claim C9: every stored chunk's embedding vector length
equals the store's configured dimension. -/
def InvDim (s : StoreState) : Prop :=
  ∀ c ∈ s.chunks, c.embedding.length = s.dimension

/-! ## Transaction scope (`SQLiteVectorStore.transaction`)

The scoped unit of work is a finite sequence of mutations, each of which
either produces a new working state or raises.  The database holds the last
committed state; SQLite's `commit` publishes the working state and
`rollback` discards it. -/

/-- One mutation executed inside a transaction scope. -/
abbrev Mutation := StoreState → Except String StoreState

/-- Sequential execution of a scope body: the first raised error aborts. -/
def applyMuts : List Mutation → StoreState → Except String StoreState
  | [], s => Except.ok s
  | m :: ms, s =>
    match m s with
    | Except.ok s2 => applyMuts ms s2
    | Except.error e => Except.error e

/-- The durable database: its last committed state. -/
structure DB where
  committed : StoreState
deriving DecidableEq

/-- The body of `transaction`: run each mutation against the working state;
on success of all, commit the final working state; on the first raised
error, roll back (keep the pre-scope committed state) and re-raise. -/
def txnGo (db : DB) : List Mutation → StoreState → DB × Option String
  | [], work => (⟨work⟩, none)
  | m :: ms, work =>
    match m work with
    | Except.ok w2 => txnGo db ms w2
    | Except.error e => (db, some e)

/-- `SQLiteVectorStore.transaction` as a scoped unit of work over the
committed state. -/
def transaction (muts : List Mutation) (db : DB) : DB × Option String :=
  txnGo db muts db.committed

/-! ## Search (`SQLiteVectorStore.search`) -/

/-- One row of the `chunks JOIN documents` query in `search`. -/
structure SearchRow where
  path : String
  title : String
  chunk_index : Nat
  text : String
  metadata : String
  embedding : List Int
deriving DecidableEq

/-- The `FROM chunks c JOIN documents d ON d.id = c.document_id` scan, in
chunk-table order. -/
def joinRows (s : StoreState) : List SearchRow :=
  s.chunks.filterMap (fun c =>
    (s.docs.find? (fun d => d.id == c.document_id)).map
      (fun d => ⟨d.path, d.title, c.chunk_index, c.text, c.metadata, c.embedding⟩))

/-- Dot product of two stored vectors (`embeddings @ query`). -/
def dot : List Int → List Int → Int
  | a :: as, b :: bs => a * b + dot as bs
  | _, _ => 0

/-- Ascending comparison by score. -/
def scoreLe (a b : SearchRow × Int) : Prop := a.2 ≤ b.2

/-- Descending comparison by score. -/
def scoreGe (a b : SearchRow × Int) : Prop := b.2 ≤ a.2

instance : DecidableRel scoreLe := fun a b => inferInstanceAs (Decidable (a.2 ≤ b.2))

instance : DecidableRel scoreGe := fun a b => inferInstanceAs (Decidable (b.2 ≤ a.2))

instance : IsTotal (SearchRow × Int) scoreLe := ⟨fun a b => Int.le_total a.2 b.2⟩

instance : IsTotal (SearchRow × Int) scoreGe := ⟨fun a b => Int.le_total b.2 a.2⟩

instance : IsTrans (SearchRow × Int) scoreLe := ⟨fun _ _ _ h1 h2 => le_trans h1 h2⟩

instance : IsTrans (SearchRow × Int) scoreGe := ⟨fun _ _ _ h1 h2 => le_trans h2 h1⟩

/-- Ascending order on integer scores. -/
def intLe (a b : Int) : Prop := a ≤ b

/-- Descending order on integer scores. -/
def intGe (a b : Int) : Prop := b ≤ a

instance : DecidableRel intLe := fun a b => inferInstanceAs (Decidable (a ≤ b))

instance : DecidableRel intGe := fun a b => inferInstanceAs (Decidable (b ≤ a))

instance : IsTotal Int intLe := ⟨fun a b => Int.le_total a b⟩

instance : IsTotal Int intGe := ⟨fun a b => Int.le_total b a⟩

instance : IsTrans Int intLe := ⟨fun _ _ _ h1 h2 => le_trans h1 h2⟩

instance : IsTrans Int intGe := ⟨fun _ _ _ h1 h2 => le_trans h2 h1⟩

instance : IsAntisymm Int intLe := ⟨fun _ _ h1 h2 => le_antisymm h1 h2⟩

instance : IsAntisymm Int intGe := ⟨fun _ _ h1 h2 => le_antisymm h2 h1⟩

/-- Python slicing `arr[-k:]` for `0 ≤ k ≤ len(arr)`: a negative start index
`-k` clamps to `len - k`, while `-0 == 0` selects the whole array. -/
def sliceNegLast (k : Nat) (l : List α) : List α :=
  if k = 0 then l else l.drop (l.length - k)

/-- Sort score pairs ascending (models the ascending order `np.argpartition`
establishes around the selected top slice). -/
def sortAscRows (l : List (SearchRow × Int)) : List (SearchRow × Int) :=
  List.insertionSort scoreLe l

/-- Sort score pairs descending (models `np.argsort(...)[: : -1]`). -/
def sortDescRows (l : List (SearchRow × Int)) : List (SearchRow × Int) :=
  List.insertionSort scoreGe l

/-- Ascending sort of a score list. -/
def sortAscInt (l : List Int) : List Int := List.insertionSort intLe l

/-- Descending sort of a score list. -/
def sortDescInt (l : List Int) : List Int := List.insertionSort intGe l

/-- `SQLiteVectorStore.search`: scan every chunk row joined with its
document, score each against the query, and select the top slice.  The
`np.argpartition(scores, -top_k)[-top_k:]` + descending-`argsort` pipeline is
modelled as: sort ascending by score, slice `[-top_k:]` (with Python's `-0`
behavior), then sort that slice descending.  Tie order inside numpy's
partition is unspecified; the model fixes one consistent choice. -/
def search (s : StoreState) (q : List Int) (top_k : Nat) : List (SearchRow × Int) :=
  let rows := joinRows s
  if rows.isEmpty then []
  else
    let scored := rows.map (fun r => (r, dot r.embedding q))
    if top_k < scored.length then
      sortDescRows (sliceNegLast top_k (sortAscRows scored))
    else
      sortDescRows scored

/-- The scored join rows, in table order. -/
def scoredRows (s : StoreState) (q : List Int) : List (SearchRow × Int) :=
  (joinRows s).map (fun r => (r, dot r.embedding q))

/-- All dot-product scores of the stored chunks against `q`, in table order. -/
def allScores (s : StoreState) (q : List Int) : List Int :=
  (scoredRows s q).map Prod.snd

/-! ## Indexing pipeline (`docfinder/index/indexer.py`) -/

/-- `IndexStats` from `docfinder/index/indexer.py`. -/
structure IndexStats where
  inserted : Nat
  updated : Nat
  skipped : Nat
  failed : Nat
  processed_files : List String
deriving DecidableEq

/-- `IndexStats()` with its default zero counts. -/
def emptyStats : IndexStats := ⟨0, 0, 0, 0, []⟩

/-- `IndexStats.increment`: bump the counter matching the status (anything
unrecognized counts as failed) and append the path. -/
def IndexStats.increment (st : IndexStats) (status : String) (p : String) : IndexStats :=
  let st2 :=
    if status = "inserted" then { st with inserted := st.inserted + 1 }
    else if status = "updated" then { st with updated := st.updated + 1 }
    else if status = "skipped" then { st with skipped := st.skipped + 1 }
    else { st with failed := st.failed + 1 }
  { st2 with processed_files := st2.processed_files ++ [p] }

/-- The per-document body of `Indexer.index`: `_index_single` either returns
a status string or raises; an exception is caught, counted as failed, and the
path is still appended to `processed_files`. -/
def processOne (process : String → Except String String) (st : IndexStats)
    (p : String) : IndexStats :=
  match process p with
  | Except.ok status => st.increment status p
  | Except.error _ =>
    { st with failed := st.failed + 1, processed_files := st.processed_files ++ [p] }

/-- The `range(0, len(pdf_files), batch_size)` slicing of `Indexer.index`
with its hard-coded `batch_size = 2`. -/
def batched2 : List String → List (List String)
  | [] => []
  | [a] => [[a]]
  | a :: b :: rest => [a, b] :: batched2 rest

/-- Whether a per-document outcome is counted as failed by the loop. -/
def isFailed (r : Except String String) : Bool :=
  match r with
  | Except.error _ => true
  | Except.ok s =>
    if s = "inserted" ∨ s = "updated" ∨ s = "skipped" then false else true

/-- `Indexer.index`, abstracted over the per-document processor: iterate the
discovered files in batches of two, catching every per-document failure. -/
def Indexer_index (process : String → Except String String)
    (pdf_files : List String) : IndexStats :=
  if pdf_files.isEmpty then emptyStats
  else (batched2 pdf_files).foldl (fun st batch => batch.foldl (processOne process) st)
    emptyStats

/-! ## Search path (`docfinder/index/search.py`, `docfinder/web/app.py`)

Queries are character sequences; calls made to the embedding provider are
recorded in an explicit call log (second component). -/

/-- Python `str.strip()`: remove leading and trailing whitespace. -/
def pyStrip (s : List Char) : List Char :=
  ((s.dropWhile Char.isWhitespace).reverse.dropWhile Char.isWhitespace).reverse

/-- `Searcher.search` (`docfinder/index/search.py`): embed the query — with
no emptiness check of any kind — then query the store.  The returned log
lists the texts passed to `embed_query`. -/
def Searcher_search (embed_query : List Char → List Int) (store : StoreState)
    (query : List Char) (top_k : Nat) : List (SearchRow × Int) × List (List Char) :=
  (search store (embed_query query) top_k, [query])

/-- The `/search` endpoint `search_documents` (`docfinder/web/app.py`): strip
the payload query, reject it with a 400 error when empty, clamp `top_k` to
`[1, 50]`, and only then run the searcher. -/
def search_documents (embed_query : List Char → List Int) (store : StoreState)
    (query : List Char) (top_k : Int) :
    Except String (List (SearchRow × Int)) × List (List Char) :=
  let q := pyStrip query
  if q.isEmpty then (Except.error "Empty query", [])
  else
    ((Except.ok (Searcher_search embed_query store q (max 1 (min top_k 50)).toNat).1),
     (Searcher_search embed_query store q (max 1 (min top_k 50)).toNat).2)

/-! ## Concrete states used by witnesses and counterexamples -/

/-- A store with one document and one chunk (dimension 1). -/
def store1 : StoreState :=
  ⟨1, [⟨1, "a.pdf", "A", "h1", 0, 10⟩], [⟨1, 0, "c0", "m", [2]⟩], 2⟩

/-- A store with one document and three chunks with scores 1, 1, 0 against
the query `[1]`: a score tie inside the selected top-2 slice. -/
def storeTie : StoreState :=
  ⟨1, [⟨1, "a.pdf", "A", "h1", 0, 10⟩],
   [⟨1, 0, "c0", "m", [1]⟩, ⟨1, 1, "c1", "m", [1]⟩, ⟨1, 2, "c2", "m", [0]⟩], 2⟩

/-- A store with one document and two chunks with scores 2 and 1 against the
query `[1]`. -/
def storeTwo : StoreState :=
  ⟨1, [⟨1, "a.pdf", "A", "h1", 0, 10⟩],
   [⟨1, 0, "c0", "m", [2]⟩, ⟨1, 1, "c1", "m", [1]⟩], 2⟩

/-- A dimension-2 store with no rows. -/
def storeDim2 : StoreState := ⟨2, [], [], 1⟩

/-- An empty dimension-1 store. -/
def storeEmpty : StoreState := ⟨1, [], [], 1⟩

/-- A sample chunk record. -/
def chunkRec (i : Nat) : ChunkRecord := ⟨"a.pdf", i, "txt", "m"⟩

/-! ## Chunker lemmas -/

theorem emitLoop_eq_of_lt {α : Type} (mc ov : Nat) (buf : List α) (h : buf.length < mc) :
    emitLoop mc ov buf = ([], buf) := by
  rw [emitLoop]
  simp only [dif_neg (by omega : ¬(0 < mc ∧ mc ≤ buf.length))]

theorem emitLoop_eq_of_le {α : Type} (mc ov : Nat) (buf : List α)
    (h0 : 0 < mc) (h : mc ≤ buf.length) :
    emitLoop mc ov buf =
      (buf.take mc :: (emitLoop mc ov (buf.drop (chunkStep mc ov))).1,
       (emitLoop mc ov (buf.drop (chunkStep mc ov))).2) := by
  rw [emitLoop]
  simp only [dif_pos (⟨h0, h⟩ : 0 < mc ∧ mc ≤ buf.length)]

theorem chunkStep_pos (mc ov : Nat) : 1 ≤ chunkStep mc ov := le_max_right _ _

theorem chunkStep_le (mc ov : Nat) (h0 : 0 < mc) : chunkStep mc ov ≤ mc := by
  have := chunkStep_pos mc ov
  simp only [chunkStep]
  omega

theorem emitLoop_snd_lt_aux {α : Type} (mc ov : Nat) (h0 : 0 < mc) :
    ∀ (n : Nat) (buf : List α), buf.length ≤ n →
      ((emitLoop mc ov buf).2).length < mc := by
  intro n
  induction n with
  | zero =>
    intro buf hb
    rw [emitLoop_eq_of_lt mc ov buf (by omega)]
    show buf.length < mc
    omega
  | succ n ih =>
    intro buf hb
    by_cases h : mc ≤ buf.length
    · rw [emitLoop_eq_of_le mc ov buf h0 h]
      exact ih _ (by have := chunkStep_pos mc ov; simp only [List.length_drop]; omega)
    · rw [emitLoop_eq_of_lt mc ov buf (by omega)]
      show buf.length < mc
      omega

theorem emitLoop_snd_lt {α : Type} (mc ov : Nat) (h0 : 0 < mc) (buf : List α) :
    ((emitLoop mc ov buf).2).length < mc :=
  emitLoop_snd_lt_aux mc ov h0 buf.length buf le_rfl

theorem emitLoop_append_aux {α : Type} (mc ov : Nat) (h0 : 0 < mc) :
    ∀ (n : Nat) (b more : List α), b.length ≤ n →
      emitLoop mc ov (b ++ more) =
        ((emitLoop mc ov b).1 ++ (emitLoop mc ov ((emitLoop mc ov b).2 ++ more)).1,
         (emitLoop mc ov ((emitLoop mc ov b).2 ++ more)).2) := by
  intro n
  induction n with
  | zero =>
    intro b more hb
    rw [emitLoop_eq_of_lt mc ov b (by omega)]
    simp
  | succ n ih =>
    intro b more hb
    by_cases h : mc ≤ b.length
    · have hstep := chunkStep_le mc ov h0
      have hpos := chunkStep_pos mc ov
      rw [emitLoop_eq_of_le mc ov (b ++ more) h0
        (by simp only [List.length_append]; omega)]
      rw [emitLoop_eq_of_le mc ov b h0 h]
      rw [List.take_append_of_le_length h]
      rw [List.drop_append_of_le_length (le_trans hstep h)]
      rw [ih (b.drop (chunkStep mc ov)) more (by simp only [List.length_drop]; omega)]
      simp
    · rw [emitLoop_eq_of_lt mc ov b (by omega)]
      simp

theorem emitLoop_append {α : Type} (mc ov : Nat) (h0 : 0 < mc) (b more : List α) :
    emitLoop mc ov (b ++ more) =
      ((emitLoop mc ov b).1 ++ (emitLoop mc ov ((emitLoop mc ov b).2 ++ more)).1,
       (emitLoop mc ov ((emitLoop mc ov b).2 ++ more)).2) :=
  emitLoop_append_aux mc ov h0 b.length b more le_rfl

theorem chunkStreamAux_eq {α : Type} (mc ov : Nat) (h0 : 0 < mc) :
    ∀ (parts : List (List α)) (buf : List α), buf.length < mc →
      chunkStreamAux mc ov parts buf =
        (emitLoop mc ov (buf ++ parts.flatten)).1 ++
          residual (emitLoop mc ov (buf ++ parts.flatten)).2 := by
  intro parts
  induction parts with
  | nil =>
    intro buf hb
    rw [show (([] : List (List α)).flatten) = [] from rfl, List.append_nil]
    rw [emitLoop_eq_of_lt mc ov buf hb]
    simp [chunkStreamAux]
  | cons p ps ih =>
    intro buf hb
    have hsnd := emitLoop_snd_lt mc ov h0 (buf ++ p)
    show (emitLoop mc ov (buf ++ p)).1 ++
        chunkStreamAux mc ov ps (emitLoop mc ov (buf ++ p)).2 = _
    rw [ih _ hsnd]
    rw [show buf ++ (p :: ps).flatten = (buf ++ p) ++ ps.flatten by
      simp [List.flatten_cons, List.append_assoc]]
    rw [emitLoop_append mc ov h0 (buf ++ p) ps.flatten]
    simp [List.append_assoc]

theorem tailJoin_emit_aux {α : Type} (mc ov : Nat) (h0 : 0 < mc) (hov : ov < mc) :
    ∀ (n : Nat) (text : List α), text.length ≤ n →
      (((emitLoop mc ov text).1 ++ residual (emitLoop mc ov text).2).map
          (List.drop ov)).flatten = text.drop ov := by
  intro n
  induction n with
  | zero =>
    intro text ht
    have htext : text = [] := List.eq_nil_of_length_eq_zero (by omega)
    subst htext
    rw [emitLoop_eq_of_lt mc ov [] (by simpa using h0)]
    simp [residual]
  | succ n ih =>
    intro text ht
    by_cases h : mc ≤ text.length
    · have hpos := chunkStep_pos mc ov
      have hstep : chunkStep mc ov = mc - ov := by simp only [chunkStep]; omega
      rw [emitLoop_eq_of_le mc ov text h0 h]
      simp only [List.cons_append, List.map_cons, List.flatten_cons]
      rw [ih (text.drop (chunkStep mc ov)) (by simp only [List.length_drop]; omega)]
      rw [List.drop_take, List.drop_drop, hstep]
      rw [show mc - ov + ov = mc by omega]
      rw [show List.drop mc text = List.drop (mc - ov) (List.drop ov text) by
        rw [List.drop_drop]; congr 1; omega]
      exact List.take_append_drop _ _
    · rw [emitLoop_eq_of_lt mc ov text (by omega)]
      by_cases he : text.isEmpty
      · rw [List.isEmpty_iff] at he
        subst he
        simp [residual]
      · simp [residual, he]

/-- C2: for every finite fragment sequence and every `max_chars > 0`,
`0 ≤ overlap < max_chars`, concatenating the first chunk produced by
`chunk_text_stream` with each later chunk stripped of its first `overlap`
characters reconstructs the concatenation of the input fragments exactly. -/
theorem C2_chunk_stream_reconstruct {α : Type} (parts : List (List α)) (mc ov : Nat)
    (h0 : 0 < mc) (hov : ov < mc) :
    reconstruct ov (chunk_text_stream parts mc ov) = parts.flatten := by
  rw [chunk_text_stream, chunkStreamAux_eq mc ov h0 parts [] (by simpa using h0)]
  rw [List.nil_append]
  by_cases h : mc ≤ parts.flatten.length
  · have hpos := chunkStep_pos mc ov
    have hstep : chunkStep mc ov = mc - ov := by simp only [chunkStep]; omega
    rw [emitLoop_eq_of_le mc ov parts.flatten h0 h]
    simp only [List.cons_append]
    show parts.flatten.take mc ++ _ = _
    rw [tailJoin_emit_aux mc ov h0 hov (parts.flatten.drop (chunkStep mc ov)).length _ le_rfl]
    rw [List.drop_drop, hstep, show mc - ov + ov = mc by omega]
    exact List.take_append_drop _ _
  · rw [emitLoop_eq_of_lt mc ov parts.flatten (by omega)]
    by_cases he : parts.flatten.isEmpty
    · rw [List.isEmpty_iff] at he
      rw [he]
      simp [residual, reconstruct]
    · simp [residual, he, reconstruct]

/-- Witness for C2 at a concrete input. -/
theorem C2_chunk_stream_reconstruct_witness :
    0 < 2 ∧ 1 < 2 ∧
      reconstruct 1 (chunk_text_stream [[(0 : Nat), 1], [2]] 2 1) = [0, 1, 2] :=
  ⟨by decide, by decide, by
    simpa using C2_chunk_stream_reconstruct [[(0 : Nat), 1], [2]] 2 1 (by decide) (by decide)⟩

theorem take_repl (n m : Nat) (h : n ≤ m) :
    (List.replicate m ()).take n = List.replicate n () := by
  rw [List.take_replicate]
  congr 1
  omega

theorem drop_repl (n m k : Nat) (h : m - n = k) :
    (List.replicate m ()).drop n = List.replicate k () := by
  rw [List.drop_replicate]
  congr 1

theorem len_repl (m : Nat) : (List.replicate m ()).length = m := List.length_replicate _ _

theorem chunk1000_compute :
    chunk_text_stream [List.replicate 1000 ()] 300 50
      = [List.replicate 300 (), List.replicate 300 (), List.replicate 300 (),
         List.replicate 250 ()] := by
  have hstep : chunkStep 300 50 = 250 := rfl
  have e250 : emitLoop 300 50 (List.replicate 250 ()) = ([], List.replicate 250 ()) :=
    emitLoop_eq_of_lt _ _ _ (by rw [len_repl]; omega)
  have e500 : emitLoop 300 50 (List.replicate 500 ()) =
      ([List.replicate 300 ()], List.replicate 250 ()) := by
    rw [emitLoop_eq_of_le _ _ _ (by omega) (by rw [len_repl]; omega), hstep,
      take_repl 300 500 (by omega), drop_repl 250 500 250 (by omega), e250]
  have e750 : emitLoop 300 50 (List.replicate 750 ()) =
      ([List.replicate 300 (), List.replicate 300 ()], List.replicate 250 ()) := by
    rw [emitLoop_eq_of_le _ _ _ (by omega) (by rw [len_repl]; omega), hstep,
      take_repl 300 750 (by omega), drop_repl 250 750 500 (by omega), e500]
  have e1000 : emitLoop 300 50 (List.replicate 1000 ()) =
      ([List.replicate 300 (), List.replicate 300 (), List.replicate 300 ()],
       List.replicate 250 ()) := by
    rw [emitLoop_eq_of_le _ _ _ (by omega) (by rw [len_repl]; omega), hstep,
      take_repl 300 1000 (by omega), drop_repl 250 1000 750 (by omega), e750]
  have hne : (List.replicate 250 ()).isEmpty = false := rfl
  show chunkStreamAux 300 50 [List.replicate 1000 ()] [] = _
  simp only [chunkStreamAux, List.nil_append, e1000, residual, hne, Bool.false_eq_true,
    if_false, List.cons_append]

/-- C1 counterexample: for a single 1000-character fragment with
`max_chars = 300`, `overlap = 50`, the emitted chunk lengths are not
`[300, 300, 300, 150]` (the final chunk has 250 characters). -/
theorem C1_counterexample :
    (chunk_text_stream [List.replicate 1000 ()] 300 50).map List.length
      ≠ [300, 300, 300, 150] := by
  rw [chunk1000_compute]
  simp only [List.map_cons, List.map_nil, len_repl]
  decide

/-- C1 amended: for a single-fragment input of exactly 1000 characters with
`max_chars = 300` and `overlap = 50`, the chunker emits exactly 4 chunks whose
texts have lengths `[300, 300, 300, 250]` and whose zero-based indices are
`[0, 1, 2, 3]`. -/
theorem C1_amended_chunks :
    (build_chunk_indexed [List.replicate 1000 ()] 300 50).map
        (fun c => (c.1, c.2.length)) = [(0, 300), (1, 300), (2, 300), (3, 250)] := by
  rw [build_chunk_indexed, chunk1000_compute]
  simp only [List.enum, List.enumFrom, List.map_cons, List.map_nil, len_repl]

/-! ## Transaction lemmas -/

theorem txnGo_spec (db : DB) :
    ∀ (muts : List Mutation) (work : StoreState),
      (∀ s2, applyMuts muts work = Except.ok s2 → txnGo db muts work = (⟨s2⟩, none)) ∧
      (∀ e, applyMuts muts work = Except.error e → txnGo db muts work = (db, some e)) := by
  intro muts
  induction muts with
  | nil =>
    intro work
    refine ⟨fun s2 h => ?_, fun e h => ?_⟩
    · simp only [applyMuts, Except.ok.injEq] at h
      rw [h]
      rfl
    · exact Except.noConfusion (show Except.ok work = Except.error e from h)
  | cons m ms ih =>
    intro work
    refine ⟨fun s2 h => ?_, fun e h => ?_⟩
    · cases hm : m work with
      | ok w2 =>
        rw [applyMuts, hm] at h
        show txnGo db (m :: ms) work = _
        rw [txnGo, hm]
        exact (ih w2).1 s2 h
      | error e2 =>
        rw [applyMuts, hm] at h
        cases h
    · cases hm : m work with
      | ok w2 =>
        rw [applyMuts, hm] at h
        show txnGo db (m :: ms) work = _
        rw [txnGo, hm]
        exact (ih w2).2 e h
      | error e2 =>
        rw [applyMuts, hm] at h
        cases h
        show txnGo db (m :: ms) work = _
        rw [txnGo, hm]

/-- C4: for every sequence of mutations run in one transaction scope, if the
body completes normally the final working state is committed; if any mutation
raises, the database keeps its pre-scope committed state and the same error
is re-raised. -/
theorem C4_transaction_commit_rollback (muts : List Mutation) (db : DB) :
    (∀ s2, applyMuts muts db.committed = Except.ok s2 →
        transaction muts db = (⟨s2⟩, none)) ∧
    (∀ e, applyMuts muts db.committed = Except.error e →
        transaction muts db = (db, some e)) :=
  txnGo_spec db muts db.committed

/-- Witness for C4: a failing scope leaves the committed state untouched. -/
theorem C4_transaction_commit_rollback_witness :
    transaction [fun _ => Except.error "boom"] ⟨storeEmpty⟩ = (⟨storeEmpty⟩, some "boom") :=
  (C4_transaction_commit_rollback [fun _ => Except.error "boom"] ⟨storeEmpty⟩).2 "boom" rfl

/-- C6: a chunk/embedding count mismatch raises the validation error and the
failing call makes no persisted change. -/
theorem C6_insert_chunks_mismatch (s : StoreState) (doc_id : Nat)
    (chunks : List ChunkRecord) (embeddings : List (List Int))
    (h : embeddings.length ≠ chunks.length) :
    insert_chunks s doc_id chunks embeddings =
        Except.error "Embeddings and chunks length mismatch" ∧
    transaction [fun st => insert_chunks st doc_id chunks embeddings] ⟨s⟩ =
        (⟨s⟩, some "Embeddings and chunks length mismatch") := by
  have he : insert_chunks s doc_id chunks embeddings =
      Except.error "Embeddings and chunks length mismatch" := by
    rw [insert_chunks, if_pos h]
  refine ⟨he, ?_⟩
  unfold transaction txnGo
  simp only [he]

/-- Witness for C6: 3 chunks with 2 embedding vectors. -/
theorem C6_insert_chunks_mismatch_witness :
    insert_chunks storeEmpty 1 [chunkRec 0, chunkRec 1, chunkRec 2] [[1], [1]] =
      Except.error "Embeddings and chunks length mismatch" :=
  (C6_insert_chunks_mismatch storeEmpty 1 [chunkRec 0, chunkRec 1, chunkRec 2] [[1], [1]]
    (by decide)).1

/-! ## Indexer loop lemmas -/

theorem increment_processed (st : IndexStats) (status p : String) :
    (st.increment status p).processed_files = st.processed_files ++ [p] := by
  unfold IndexStats.increment
  split_ifs <;> rfl

theorem increment_failed (st : IndexStats) (status p : String) :
    (st.increment status p).failed =
      st.failed +
        (if status = "inserted" ∨ status = "updated" ∨ status = "skipped" then 0 else 1) := by
  unfold IndexStats.increment
  split_ifs with h1 h2 h3 h4 <;> simp_all

theorem processOne_processed (process : String → Except String String)
    (st : IndexStats) (p : String) :
    (processOne process st p).processed_files = st.processed_files ++ [p] := by
  cases hp : process p with
  | ok s => rw [processOne, hp]; exact increment_processed st s p
  | error e => rw [processOne, hp]

theorem processOne_failed (process : String → Except String String)
    (st : IndexStats) (p : String) :
    (processOne process st p).failed =
      st.failed + (if isFailed (process p) then 1 else 0) := by
  cases hp : process p with
  | ok s =>
    rw [processOne, hp, increment_failed, isFailed]
    split_ifs <;> simp_all
  | error e => simp [processOne, hp, isFailed]

theorem foldl_batch (process : String → Except String String) :
    ∀ (batch : List String) (st : IndexStats),
      ((batch.foldl (processOne process) st).processed_files
          = st.processed_files ++ batch) ∧
      ((batch.foldl (processOne process) st).failed
          = st.failed + batch.countP (fun p => isFailed (process p))) := by
  intro batch
  induction batch with
  | nil => intro st; simp
  | cons p ps ih =>
    intro st
    rw [List.foldl_cons]
    obtain ⟨h1, h2⟩ := ih (processOne process st p)
    refine ⟨?_, ?_⟩
    · rw [h1, processOne_processed]
      simp
    · rw [h2, processOne_failed, List.countP_cons]
      cases hif : isFailed (process p)
      · simp [hif]
      · simp [hif]
        omega

theorem foldl_batches (process : String → Except String String) :
    ∀ (batches : List (List String)) (st : IndexStats),
      ((batches.foldl (fun st2 batch => batch.foldl (processOne process) st2) st).processed_files
          = st.processed_files ++ batches.flatten) ∧
      ((batches.foldl (fun st2 batch => batch.foldl (processOne process) st2) st).failed
          = st.failed + batches.flatten.countP (fun p => isFailed (process p))) := by
  intro batches
  induction batches with
  | nil => intro st; simp
  | cons b bs ih =>
    intro st
    rw [List.foldl_cons]
    obtain ⟨h1, h2⟩ := ih (b.foldl (processOne process) st)
    obtain ⟨g1, g2⟩ := foldl_batch process b st
    refine ⟨?_, ?_⟩
    · rw [h1, g1]
      simp [List.append_assoc]
    · rw [h2, g2, List.flatten_cons, List.countP_append]
      omega

theorem batched2_flatten : ∀ l : List String, (batched2 l).flatten = l
  | [] => rfl
  | [_] => rfl
  | a :: b :: rest => by
    show ([a, b] :: batched2 rest).flatten = a :: b :: rest
    rw [List.flatten_cons, batched2_flatten rest]
    rfl

/-- C7: the indexing loop catches every per-document failure, counts it, and
continues: the resulting stats list every processed path in order (failed
ones included), and `failed` counts exactly the documents whose processing
raised (or returned an unrecognized status). -/
theorem C7_index_loop_resilient (process : String → Except String String)
    (paths : List String) :
    (Indexer_index process paths).processed_files = paths ∧
    (Indexer_index process paths).failed
      = paths.countP (fun p => isFailed (process p)) := by
  by_cases hp : paths.isEmpty
  · rw [List.isEmpty_iff] at hp
    subst hp
    exact ⟨rfl, rfl⟩
  · rw [Indexer_index, if_neg hp]
    obtain ⟨h1, h2⟩ := foldl_batches process (batched2 paths) emptyStats
    rw [h1, h2, batched2_flatten]
    exact ⟨by simp [emptyStats], by simp [emptyStats]⟩

/-! ## `init_document` lemmas -/

theorem find_doc_of_mem {l : List DocRow}
    (hp : l.Pairwise (fun a b => a.path ≠ b.path)) :
    ∀ {r : DocRow}, r ∈ l → ∀ {p : String}, r.path = p →
      l.find? (fun x => x.path == p) = some r := by
  induction l with
  | nil => intro r hr; cases hr
  | cons a as ih =>
    intro r hr p hpath
    rcases List.mem_cons.1 hr with rfl | hmem
    · have hbeq : (r.path == p) = true := by simp [hpath]
      rw [List.find?_cons, hbeq]
    · have hne : (a.path == p) = false := by
        have h1 : a.path ≠ r.path := (List.pairwise_cons.1 hp).1 r hmem
        rw [hpath] at h1
        simpa using h1
      rw [List.find?_cons, hne]
      exact ih (List.pairwise_cons.1 hp).2 hmem hpath

theorem filter_ne_eq_erase {l : List DocRow}
    (hid : l.Pairwise (fun a b => a.id ≠ b.id)) :
    ∀ {r : DocRow}, r ∈ l → l.filter (fun x => x.id ≠ r.id) = l.erase r := by
  induction l with
  | nil => intro r hr; cases hr
  | cons a as ih =>
    intro r hr
    rcases List.mem_cons.1 hr with rfl | hmem
    · rw [List.erase_cons_head]
      rw [List.filter_cons_of_neg (by simp)]
      apply List.filter_eq_self.2
      intro x hx
      have : r.id ≠ x.id := (List.pairwise_cons.1 hid).1 x hx
      simpa using fun he => this he.symm
    · have haid : a.id ≠ r.id := (List.pairwise_cons.1 hid).1 r hmem
      have har : a ≠ r := fun he => haid (congrArg DocRow.id he)
      rw [List.erase_cons_tail (by simpa using har)]
      rw [List.filter_cons_of_pos (by simpa using haid)]
      rw [ih (List.pairwise_cons.1 hid).2 hmem]

/-- C3: `init_document` is a trichotomy on the row stored under the
document's path — same hash: `skipped` with no row changed; different hash:
that row and all chunk rows owned by it are deleted and a fresh row is
inserted (`updated`); no such row: a fresh row is inserted (`inserted`). -/
theorem C3_init_document_trichotomy (s : StoreState) (d : DocumentMetadata)
    (hpaths : s.docs.Pairwise (fun a b => a.path ≠ b.path))
    (hids : s.docs.Pairwise (fun a b => a.id ≠ b.id)) :
    (∀ row ∈ s.docs, row.path = d.path → row.sha256 = d.sha256 →
        init_document s d = (s, -1, "skipped")) ∧
    (∀ row ∈ s.docs, row.path = d.path → row.sha256 ≠ d.sha256 →
        init_document s d =
          ({ s with
              chunks := s.chunks.filter (fun c => c.document_id ≠ row.id),
              docs := s.docs.erase row ++ [newDocRow s d],
              nextId := s.nextId + 1 },
           (s.nextId : Int), "updated")) ∧
    ((∀ row ∈ s.docs, row.path ≠ d.path) →
        init_document s d =
          ({ s with docs := s.docs ++ [newDocRow s d], nextId := s.nextId + 1 },
           (s.nextId : Int), "inserted")) := by
  refine ⟨?_, ?_, ?_⟩
  · intro row hrow hpath hsha
    have hf : findDoc s d.path = some row := find_doc_of_mem hpaths hrow hpath
    simp only [init_document, hf, if_pos hsha]
  · intro row hrow hpath hsha
    have hf : findDoc s d.path = some row := find_doc_of_mem hpaths hrow hpath
    simp only [init_document, hf, if_neg hsha]
    rw [filter_ne_eq_erase hids hrow]
  · intro hnone
    have hf : findDoc s d.path = none := by
      rw [findDoc]
      apply List.find?_eq_none.2
      intro x hx
      simpa using hnone x hx
    simp only [init_document, hf]

/-- Witness for C3: re-initializing an unchanged document is skipped. -/
theorem C3_init_document_trichotomy_witness :
    init_document store1 ⟨"a.pdf", "A", "h1", 0, 10⟩ = (store1, -1, "skipped") :=
  (C3_init_document_trichotomy store1 ⟨"a.pdf", "A", "h1", 0, 10⟩
      (by simp [store1]) (by simp [store1])).1
    ⟨1, "a.pdf", "A", "h1", 0, 10⟩ (by simp [store1]) rfl rfl

/-! ## Search ranking lemmas -/

theorem map_snd_sortDescRows (l : List (SearchRow × Int)) :
    (sortDescRows l).map Prod.snd = sortDescInt (l.map Prod.snd) :=
  @List.eq_of_perm_of_sorted _ intGe _ _ _
    (((List.perm_insertionSort scoreGe l).map Prod.snd).trans
      (List.perm_insertionSort intGe (l.map Prod.snd)).symm)
    ((List.pairwise_map).2 ((List.sorted_insertionSort scoreGe l).imp (fun h => h)))
    (List.sorted_insertionSort intGe _)

theorem map_snd_sortAscRows (l : List (SearchRow × Int)) :
    (sortAscRows l).map Prod.snd = sortAscInt (l.map Prod.snd) :=
  @List.eq_of_perm_of_sorted _ intLe _ _ _
    (((List.perm_insertionSort scoreLe l).map Prod.snd).trans
      (List.perm_insertionSort intLe (l.map Prod.snd)).symm)
    ((List.pairwise_map).2 ((List.sorted_insertionSort scoreLe l).imp (fun h => h)))
    (List.sorted_insertionSort intLe _)

theorem reverse_sortAscInt (l : List Int) : (sortAscInt l).reverse = sortDescInt l :=
  @List.eq_of_perm_of_sorted _ intGe _ _ _
    ((List.reverse_perm _).trans
      ((List.perm_insertionSort intLe l).trans (List.perm_insertionSort intGe l).symm))
    ((List.pairwise_reverse).2 ((List.sorted_insertionSort intLe l).imp (fun h => h)))
    (List.sorted_insertionSort intGe l)

theorem sortDescInt_sortAscInt (l : List Int) :
    sortDescInt (sortAscInt l) = sortDescInt l :=
  @List.eq_of_perm_of_sorted _ intGe _ _ _
    (((List.perm_insertionSort intGe _).trans (List.perm_insertionSort intLe l)).trans
      (List.perm_insertionSort intGe l).symm)
    (List.sorted_insertionSort intGe _)
    (List.sorted_insertionSort intGe l)

theorem sortDesc_drop_sortAsc (scores : List Int) (k : Nat) (hk : k ≤ scores.length) :
    sortDescInt ((sortAscInt scores).drop (scores.length - k))
      = (sortDescInt scores).take k := by
  have hlen : (sortAscInt scores).length = scores.length :=
    (List.perm_insertionSort intLe scores).length_eq
  have hsortedA : List.Sorted intLe (sortAscInt scores) :=
    List.sorted_insertionSort intLe scores
  have hdropsorted : List.Sorted intLe ((sortAscInt scores).drop (scores.length - k)) :=
    hsortedA.sublist (List.drop_sublist _ _)
  have h1 : sortDescInt ((sortAscInt scores).drop (scores.length - k))
      = ((sortAscInt scores).drop (scores.length - k)).reverse :=
    @List.eq_of_perm_of_sorted _ intGe _ _ _
      ((List.perm_insertionSort intGe _).trans (List.reverse_perm _).symm)
      (List.sorted_insertionSort intGe _)
      ((List.pairwise_reverse).2 (hdropsorted.imp (fun h => h)))
  rw [h1, List.reverse_drop]
  rw [show (sortAscInt scores).length - (scores.length - k) = k from by rw [hlen]; omega]
  rw [reverse_sortAscInt]

/-- C5 amended: `search(q, k)` returns chunks achieving the `k` highest
dot-product scores, in non-increasing score order (strictly descending only
when scores are distinct; under exact ties the order is non-strict); for
`k ≥ N` it returns all `N` chunks in non-increasing score order; for `N = 0`
it returns the empty list. -/
theorem C5_search_topk (s : StoreState) (q : List Int) (k : Nat) :
    ((joinRows s).length = 0 → search s q k = []) ∧
    (0 < k → k < (joinRows s).length →
      (search s q k).length = k ∧
      (search s q k).map Prod.snd = (sortDescInt (allScores s q)).take k ∧
      ∀ x ∈ search s q k, x ∈ scoredRows s q) ∧
    ((joinRows s).length ≤ k →
      List.Perm (search s q k) (scoredRows s q) ∧
      (search s q k).map Prod.snd = sortDescInt (allScores s q)) := by
  have hscored : (joinRows s).map (fun r => (r, dot r.embedding q)) = scoredRows s q := rfl
  have hslen : (scoredRows s q).length = (joinRows s).length := List.length_map _ _
  have hall : (scoredRows s q).map Prod.snd = allScores s q := rfl
  have halllen : (allScores s q).length = (joinRows s).length := by
    rw [← hall, List.length_map, hslen]
  refine ⟨?_, ?_, ?_⟩
  · intro h0
    rw [search]
    simp only [List.isEmpty_iff]
    rw [if_pos (List.eq_nil_of_length_eq_zero h0)]
  · intro hk0 hkn
    have hne : (joinRows s).isEmpty = false := by
      rw [List.isEmpty_eq_false_iff_exists_mem]
      have : 0 < (joinRows s).length := by omega
      obtain ⟨x, hx⟩ := List.exists_mem_of_length_pos this
      exact ⟨x, hx⟩
    have hbranch : search s q k
        = sortDescRows (sliceNegLast k (sortAscRows (scoredRows s q))) := by
      rw [search]
      simp only [hne, Bool.false_eq_true, if_false, hscored]
      rw [if_pos (by rw [hslen]; exact hkn)]
    have hasclen : (sortAscRows (scoredRows s q)).length = (joinRows s).length :=
      (List.perm_insertionSort scoreLe _).length_eq.trans hslen
    have hslice : sliceNegLast k (sortAscRows (scoredRows s q))
        = (sortAscRows (scoredRows s q)).drop ((joinRows s).length - k) := by
      rw [sliceNegLast, if_neg (by omega), hasclen]
    have hslicelen : (sliceNegLast k (sortAscRows (scoredRows s q))).length = k := by
      rw [hslice, List.length_drop, hasclen]
      omega
    refine ⟨?_, ?_, ?_⟩
    · rw [hbranch]
      exact ((List.perm_insertionSort scoreGe _).length_eq).trans hslicelen
    · rw [hbranch, map_snd_sortDescRows, hslice, List.map_drop, map_snd_sortAscRows, hall]
      rw [show (joinRows s).length = (allScores s q).length from halllen.symm]
      exact sortDesc_drop_sortAsc (allScores s q) k (by omega)
    · intro x hx
      rw [hbranch] at hx
      have hx2 : x ∈ sliceNegLast k (sortAscRows (scoredRows s q)) :=
        (List.perm_insertionSort scoreGe _).mem_iff.1 hx
      rw [hslice] at hx2
      have hx3 : x ∈ sortAscRows (scoredRows s q) := List.drop_subset _ _ hx2
      exact (List.perm_insertionSort scoreLe _).mem_iff.1 hx3
  · intro hkn
    by_cases hne : (joinRows s).isEmpty
    · rw [List.isEmpty_iff] at hne
      have h1 : search s q k = [] := by
        rw [search]
        simp only [hne]
        rfl
      have h2 : scoredRows s q = [] := by rw [scoredRows, hne]; rfl
      have h3 : allScores s q = [] := by rw [allScores, h2]; rfl
      rw [h1, h2, h3]
      exact ⟨List.Perm.refl _, rfl⟩
    · have hbranch : search s q k = sortDescRows (scoredRows s q) := by
        rw [search]
        simp only [Bool.not_eq_true] at hne
        simp only [hne, Bool.false_eq_true, if_false, hscored]
        rw [if_neg (by rw [hslen]; omega)]
      refine ⟨?_, ?_⟩
      · rw [hbranch]
        exact List.perm_insertionSort scoreGe _
      · rw [hbranch, map_snd_sortDescRows, hall]

/-- Witness for C5 at a two-chunk store with `k = 1`. -/
theorem C5_search_topk_witness :
    (search storeTwo [1] 1).length = 1 ∧
    (search storeTwo [1] 1).map Prod.snd = (sortDescInt (allScores storeTwo [1])).take 1 :=
  ⟨((C5_search_topk storeTwo [1] 1).2.1 (by decide) (by decide)).1,
   ((C5_search_topk storeTwo [1] 1).2.1 (by decide) (by decide)).2.1⟩

/-- C5 counterexample: with a score tie inside the selected top-2 slice the
result is not ordered strictly descending by score. -/
theorem C5_search_topk_counterexample :
    0 < 2 ∧ 2 < (joinRows storeTie).length ∧
    ¬ List.Pairwise (fun a b : SearchRow × Int => b.2 < a.2) (search storeTie [1] 2) := by
  refine ⟨by decide, by decide, by decide⟩

/-- C10: with `top_k = 0` and at least one stored chunk, `search` returns all
`N` chunks in descending score order — not the empty list — because the
`top_k < N` branch slices with `[-0:]`, selecting the whole score array. -/
theorem C10_search_topk_zero (s : StoreState) (q : List Int)
    (h : 1 ≤ (joinRows s).length) :
    List.Perm (search s q 0) (scoredRows s q) ∧
    (search s q 0).map Prod.snd = sortDescInt (allScores s q) ∧
    search s q 0 ≠ [] := by
  have hscored : (joinRows s).map (fun r => (r, dot r.embedding q)) = scoredRows s q := rfl
  have hslen : (scoredRows s q).length = (joinRows s).length := List.length_map _ _
  have hne : (joinRows s).isEmpty = false := by
    rw [List.isEmpty_eq_false_iff_exists_mem]
    obtain ⟨x, hx⟩ :=
      List.exists_mem_of_length_pos (show 0 < (joinRows s).length by omega)
    exact ⟨x, hx⟩
  have hcond : 0 < (scoredRows s q).length := by
    rw [hslen]
    omega
  have hbranch : search s q 0 = sortDescRows (sortAscRows (scoredRows s q)) := by
    rw [search]
    simp only [hne, Bool.false_eq_true, if_false, hscored]
    rw [if_pos hcond]
    rw [sliceNegLast, if_pos rfl]
  have hperm : List.Perm (search s q 0) (scoredRows s q) := by
    rw [hbranch]
    exact (List.perm_insertionSort scoreGe _).trans (List.perm_insertionSort scoreLe _)
  refine ⟨hperm, ?_, ?_⟩
  · rw [hbranch, map_snd_sortDescRows, map_snd_sortAscRows]
    exact sortDescInt_sortAscInt _
  · intro hnil
    have hlen0 := hperm.length_eq
    rw [hnil, hslen] at hlen0
    simp only [List.length_nil] at hlen0
    omega

/-- Witness for C10 at a one-chunk store. -/
theorem C10_search_topk_zero_witness :
    (search store1 [1] 0).map Prod.snd = sortDescInt (allScores store1 [1]) ∧
    search store1 [1] 0 ≠ [] :=
  ⟨(C10_search_topk_zero store1 [1] (by decide)).2.1,
   (C10_search_topk_zero store1 [1] (by decide)).2.2⟩

/-! ## Search-path rejection (C8) -/

/-- C8 counterexample: for a whitespace-only query — empty after trimming —
`Searcher.search` still calls the embedding provider (the call log is
nonempty), so the rejection does not happen in the Search Path's search
operation. -/
theorem C8_counterexample :
    (pyStrip [' ']).isEmpty = true ∧
    (Searcher_search (fun _ => [0]) storeEmpty [' '] 10).2 = [[' ']] :=
  ⟨rfl, rfl⟩

/-- C8 amended: `Searcher.search` itself performs no emptiness check and
invokes the embedding provider on every query; the trimmed-empty rejection
happens in the web endpoint `search_documents`, which returns the
`"Empty query"` error before any embedding call. -/
theorem C8_amended_rejection (embed_query : List Char → List Int)
    (store : StoreState) (query : List Char) (top_k : Int) :
    (∀ k, (Searcher_search embed_query store query k).2 = [query]) ∧
    ((pyStrip query).isEmpty = true →
      search_documents embed_query store query top_k = (Except.error "Empty query", [])) := by
  refine ⟨fun k => rfl, fun h => ?_⟩
  rw [search_documents]
  simp only [h, if_true]

/-- Witness for C8 at a whitespace-only query. -/
theorem C8_amended_rejection_witness :
    search_documents (fun _ => [0]) storeEmpty [' '] 10 = (Except.error "Empty query", []) :=
  (C8_amended_rejection (fun _ => [0]) storeEmpty [' '] 10).2 rfl

/-! ## Dimension invariant (C9) -/

/-- C9 counterexample: `insert_chunks` performs no dimension validation — a
3-entry vector is persisted unchanged into a store configured with
dimension 2, violating the stored-vector-length invariant. -/
theorem C9_counterexample :
    storeDim2.dimension = 2 ∧
    insert_chunks storeDim2 1 [chunkRec 0] [[1, 2, 3]] =
      Except.ok ⟨2, [], [⟨1, 0, "txt", "m", [1, 2, 3]⟩], 1⟩ ∧
    ¬ InvDim ⟨2, [], [⟨1, 0, "txt", "m", [1, 2, 3]⟩], 1⟩ :=
  ⟨rfl, rfl, fun hinv =>
    absurd (hinv ⟨1, 0, "txt", "m", [1, 2, 3]⟩ (List.mem_singleton.2 rfl)) (by decide)⟩

/-- C9 amended: the store itself never checks vector lengths; the invariant
holds only conditionally — when every supplied embedding vector has the
store's dimension (as the integrated pipeline guarantees), `insert_chunks`
preserves it, and `init_document` always preserves it. -/
theorem C9_amended_dim_invariant (s : StoreState) :
    (∀ doc_id chunks embeddings s2, InvDim s →
        (∀ v ∈ embeddings, List.length v = s.dimension) →
        insert_chunks s doc_id chunks embeddings = Except.ok s2 → InvDim s2) ∧
    (∀ d, InvDim s → InvDim (init_document s d).1) := by
  constructor
  · intro doc_id chunks embeddings s2 hinv hdim hok
    rw [insert_chunks] at hok
    by_cases hlen : embeddings.length ≠ chunks.length
    · rw [if_pos hlen] at hok
      cases hok
    · rw [if_neg hlen] at hok
      cases hok
      intro c hc
      rcases List.mem_append.1 hc with hold | hnew
      · exact hinv c hold
      · obtain ⟨⟨cr, v⟩, hmem, rfl⟩ := List.mem_map.1 hnew
        exact hdim v (List.of_mem_zip hmem).2
  · intro d hinv
    rw [init_document]
    cases hfind : findDoc s d.path with
    | some ex =>
      by_cases hsha : ex.sha256 = d.sha256
      · simp only [hfind, if_pos hsha]
        exact hinv
      · simp only [hfind, if_neg hsha]
        intro c hc
        exact hinv c (List.mem_of_mem_filter hc)
    | none =>
      simp only [hfind]
      exact hinv

/-- Witness for C9: inserting a dimension-correct vector preserves the
invariant. -/
theorem C9_amended_dim_invariant_witness :
    InvDim ⟨2, [], [⟨1, 0, "txt", "m", [1, 2]⟩], 1⟩ :=
  (C9_amended_dim_invariant storeDim2).1 1 [chunkRec 0] [[1, 2]]
    ⟨2, [], [⟨1, 0, "txt", "m", [1, 2]⟩], 1⟩
    (fun c hc => absurd hc (by simp [storeDim2]))
    (by simp [storeDim2]) rfl

end DocFinder
